import Mathlib

/-!
Shallow embedding of the core of `glimps-re/connector-integration`:
the error-state tracker (`sdk/events/error.go`), the structured log
bridge (`sdk/events/logger.go`), and the connector-manager HTTP client
with its task-fetch loop (`sdk/loader.go` client code).

Go maps are modelled as association lists, Go slices (where backing-array
aliasing matters) as explicit heap-indexed arrays, and the notifier as a
parameter giving the outcome of each `Notify` call.
-/

set_option autoImplicit false

namespace ConnectorIntegration

/-! ## Error-state tracker (`sdk/events/error.go`, `Handler`) -/

/-- `ErrorEventType` is an open string enumeration (`type ErrorEventType string`). -/
abbrev ErrorEventType := String

/-- Model of the Go map `map[ErrorEventType]string` held in `Handler.errors`:
an association list from error kind to the last notified message. -/
abbrev ErrorMap := List (ErrorEventType × String)

/-- Go map read `h.errors[errorType]` (comma-ok form). -/
def ErrorMap.find : ErrorMap → ErrorEventType → Option String
  | [], _ => none
  | (k, v) :: rest, key => if k = key then some v else ErrorMap.find rest key

/-- Go map write `h.errors[errorType] = msg` (insert or overwrite). -/
def ErrorMap.set : ErrorMap → ErrorEventType → String → ErrorMap
  | [], key, msg => [(key, msg)]
  | (k, v) :: rest, key, msg =>
    if k = key then (key, msg) :: rest else (k, v) :: ErrorMap.set rest key msg

/-- Go map delete `delete(h.errors, errType)`. -/
def ErrorMap.erase : ErrorMap → ErrorEventType → ErrorMap
  | [], _ => []
  | (k, v) :: rest, key => if k = key then rest else (k, v) :: ErrorMap.erase rest key

/-- `ErrorEvent` (the `Time` field, `time.Now().Unix()`, is not modelled). -/
structure ErrorEvent where
  error : String
  type : ErrorEventType
  deriving DecidableEq

/-- `ResolutionEvent` (the `Time` field is not modelled). -/
structure ResolutionEvent where
  types : List ErrorEventType
  resolution : String
  deriving DecidableEq

/-- The event variants the error tracker can send through `Notifier.Notify`. -/
inductive Event where
  | error (e : ErrorEvent)
  | resolution (r : ResolutionEvent)
  deriving DecidableEq

/-- `Handler.hadError`: an entry for `errorType` exists and holds exactly `errorMsg`. -/
def hadError (errors : ErrorMap) (errorType : ErrorEventType) (errorMsg : String) : Bool :=
  match errors.find errorType with
  | some msg => msg == errorMsg
  | none => false

/-- `Handler.hadErrors`: some kind in `errorTypes` has an entry. -/
def hadErrors (errors : ErrorMap) (errorTypes : List ErrorEventType) : Bool :=
  errorTypes.any fun errType => (errors.find errType).isSome

/-- Result of one `NotifyError` / `NotifyResolution` call: the events passed to
`notifier.Notify` (in order), the error returned to the caller (`none` = nil),
and the tracker's `errors` map afterwards. -/
structure NotifyOutcome where
  sent : List Event
  result : Option String
  errors : ErrorMap
  deriving DecidableEq

/-- `Handler.NotifyError`. The notifier's behaviour is a parameter:
`sendResult = none` means `Notify` would succeed, `some e` that it would
return error `e`. -/
def NotifyError (errors : ErrorMap) (errorType : ErrorEventType) (e : String)
    (sendResult : Option String) : NotifyOutcome :=
  if hadError errors errorType e then
    ⟨[], none, errors⟩
  else
    let errEvent : ErrorEvent := ⟨e, errorType⟩
    match sendResult with
    | some err => ⟨[Event.error errEvent], some err, errors⟩
    | none => ⟨[Event.error errEvent], none, errors.set errorType e⟩

/-- `Handler.NotifyResolution`. -/
def NotifyResolution (errors : ErrorMap) (msg : String) (errorTypes : List ErrorEventType)
    (sendResult : Option String) : NotifyOutcome :=
  if !hadErrors errors errorTypes then
    ⟨[], none, errors⟩
  else
    let resEvent : ResolutionEvent := ⟨errorTypes, msg⟩
    match sendResult with
    | some err => ⟨[Event.resolution resEvent], some err, errors⟩
    | none => ⟨[Event.resolution resEvent], none, errorTypes.foldl ErrorMap.erase errors⟩

/-- `NewHandler`'s treatment of the `unresolvedError` argument: a Go nil map
(`none`) is replaced by a freshly allocated empty map. -/
def NewHandlerErrors (unresolvedError : Option ErrorMap) : ErrorMap :=
  match unresolvedError with
  | none => []
  | some m => m

/-! ## Attribute trees (`sdk/events/logger.go`, `addAttribute` / `getAttributes`)

`slog.Attr` values are modelled with resolved scalar string values; the emitted
`map[string]any` (scalars or nested maps) is an association list of `AVal`. -/

/-- A `slog.Attr` with its value resolved to a scalar (`attr.Value.Any()`). -/
structure SAttr where
  key : String
  val : String
  deriving DecidableEq

/-- A value of the emitted attribute map: a scalar, or a nested group map. -/
inductive AVal where
  | scalar (v : String)
  | tree (entries : List (String × AVal))

/-- The emitted `map[string]any`, as an association list. -/
abbrev AMap := List (String × AVal)

/-- Go map read on the emitted map (comma-ok form). -/
def lookupKey : AMap → String → Option AVal
  | [], _ => none
  | (k, v) :: rest, key => if k = key then some v else lookupKey rest key

/-- Go map write on the emitted map (insert or overwrite). -/
def setKey : AMap → String → AVal → AMap
  | [], key, v => [(key, v)]
  | (k, w) :: rest, key, v =>
    if k = key then (key, v) :: rest else (k, w) :: setKey rest key v

/-- `addAttribute(attributes, groups, attr)`: descend along `groups`, reusing an
existing nested map at each step and otherwise installing a fresh empty map
(which replaces any non-map value sitting at that key), then write the scalar
at the final key. -/
def addAttribute (attributes : AMap) (groups : List String) (attr : SAttr) : AMap :=
  match groups with
  | [] => setKey attributes attr.key (.scalar attr.val)
  | group :: rest =>
    let sub : AMap :=
      match lookupKey attributes group with
      | some (.tree t) => t
      | _ => []
    setKey attributes group (.tree (addAttribute sub rest attr))

/-- One entry of `LogHandler.attributes`: an attribute tagged with the
group path in effect when it was attached. -/
structure AttrWithGroups where
  attr : SAttr
  groups : List String
  deriving DecidableEq

/-- `LogHandler.getAttributes`: replay all persisted attributes in order at
their own stored group paths, then the record's inline attributes under the
handler's current group path. -/
def getAttributes (persisted : List AttrWithGroups) (curGroups : List String)
    (recordAttrs : List SAttr) : AMap :=
  let attributes := persisted.foldl (fun acc a => addAttribute acc a.groups a.attr) []
  recordAttrs.foldl (fun acc a => addAttribute acc curGroups a) attributes

/-- Lookup of a fully-qualified key: descend through the nested maps named by
the group path, then read the final key. -/
def lookupPath (m : AMap) : List String → String → Option AVal
  | [], key => lookupKey m key
  | group :: rest, key =>
    match lookupKey m group with
    | some (.tree t) => lookupPath t rest key
    | _ => none

/-! ## Connector-manager HTTP client (`ConnectorManagerClient.call` / `.tasks`)

`call`'s response handling after `retryDo` is modelled on the three status
classes the code distinguishes; JSON decoding outcomes are a parameter.
The task-fetch goroutine of `tasks` is run over a finite prefix of fetch
outcomes. -/

/-- The errors `call` can return: `errors.Join(ErrUnauthorizedConnector,
HTTPError)` on 401, a plain `HTTPError` otherwise, or a decode failure. -/
inductive CallErr where
  | unauthorized (status : Nat) (body : String)
  | http (status : Nat) (body : String)
  | decodeFail (msg : String)
  deriving DecidableEq

/-- `errors.Is(err, ErrUnauthorizedConnector)`. -/
def CallErr.isUnauthorizedConnector : CallErr → Bool
  | .unauthorized _ _ => true
  | _ => false

/-- Outcome of one `call`: whether `json.Unmarshal` into the caller's target
was attempted, and the error returned (`none` = nil). -/
structure CallOutcome where
  decodeAttempted : Bool
  err : Option CallErr
  deriving DecidableEq

/-- `ConnectorManagerClient.call`'s response handling: status 200 decodes the
body into `res` only when a non-nil target was given (`resGiven`) and the body
is non-empty (`resp.ContentLength`, i.e. the body length, is non-zero); 401
returns the fatal unauthorized error (the diagnostic error-code parse only
logs); any other status returns a generic `HTTPError`. `decodeErr` is the
outcome `json.Unmarshal` would have. -/
def callResponse (status : Nat) (body : String) (resGiven : Bool)
    (decodeErr : Option String) : CallOutcome :=
  if status = 200 then
    if !resGiven || body.length == 0 then ⟨false, none⟩
    else ⟨true, decodeErr.map CallErr.decodeFail⟩
  else if status = 401 then ⟨false, some (.unauthorized status body)⟩
  else ⟨false, some (.http status body)⟩

/-- What one iteration of the fetch loop sees from `getTasks`. -/
inductive FetchResult where
  | ok (tasks : List String)
  | unauthorized
  | otherError
  deriving DecidableEq

/-- How the fetch loop classifies a `getTasks` outcome (`tasks` are the ids in
the decoded response). -/
def fetchResultOfCall (o : CallOutcome) (tasks : List String) : FetchResult :=
  match o.err with
  | none => .ok tasks
  | some e => if e.isUnauthorizedConnector then .unauthorized else .otherError

/-- The producer goroutine of `ConnectorManagerClient.tasks`, run over a finite
prefix of fetch outcomes: returns the tasks pushed to the channel in order and
whether the goroutine returned (which closes the channel). On `ok` it pushes
the batch and continues; on unauthorized it returns; on any other error it
logs and retries on the next iteration. -/
def producerRun : List FetchResult → List String × Bool
  | [] => ([], false)
  | .ok ts :: rest => (ts ++ (producerRun rest).1, (producerRun rest).2)
  | .unauthorized :: _ => ([], true)
  | .otherError :: rest => producerRun rest

/-- The dispatch loop of `ConnectorManagerClient.Start`, as a consumer of the
channel: `some task` items are dispatched, observing `none` (channel closed)
makes the loop return. Returns whether the loop returned. -/
def dispatchRun : List (Option String) → Bool
  | [] => false
  | none :: _ => true
  | some _ :: rest => dispatchRun rest

/-! ## Go slices with shared backing arrays (`LogHandler.WithAttrs` / `WithGroup`)

The aliasing hazard the `slices.Clip` calls guard against is about mutable
backing arrays shared between sibling handlers, so slices are modelled
explicitly: a heap of backing arrays, and slice headers carrying an array
index, a length and a capacity (the code never re-slices from a non-zero
offset). `append` writes in place when spare capacity remains and otherwise
allocates a new backing array, exactly Go's observable behaviour. -/

/-- A Go slice header. -/
structure GoSlice where
  arr : Nat
  len : Nat
  cap : Nat
  deriving DecidableEq

/-- A heap of backing arrays holding elements of type `α`. -/
structure GoHeap (α : Type) where
  arrays : List (List α)

/-- The elements a slice makes visible. -/
def GoHeap.read {α : Type} (h : GoHeap α) (s : GoSlice) : List α :=
  (h.arrays.getD s.arr []).take s.len

/-- `slices.Clip`: restrict the capacity to the length; no copy. -/
def GoSlice.clip (s : GoSlice) : GoSlice :=
  { s with cap := s.len }

/-- Go `append` of one element: write into the backing array when spare
capacity remains, otherwise allocate a new backing array holding the visible
elements followed by the new one. -/
def goAppend {α : Type} (h : GoHeap α) (s : GoSlice) (x : α) : GoHeap α × GoSlice :=
  if s.len < s.cap then
    (⟨h.arrays.set s.arr ((h.arrays.getD s.arr []).set s.len x)⟩, { s with len := s.len + 1 })
  else
    (⟨h.arrays ++ [h.read s ++ [x]]⟩, ⟨h.arrays.length, s.len + 1, s.len + 1⟩)

/-- The two slice-valued fields of `LogHandler`, as slice headers. -/
structure LogHandlerS where
  attributes : GoSlice
  groups : GoSlice
  deriving DecidableEq

/-- The backing-array heaps behind all log handlers. -/
structure LoggerHeap where
  attrArrays : GoHeap AttrWithGroups
  groupArrays : GoHeap String

/-- The persisted attribute list a handler observes. -/
def readAttributes (st : LoggerHeap) (lh : LogHandlerS) : List AttrWithGroups :=
  st.attrArrays.read lh.attributes

/-- The group path a handler observes. -/
def readGroups (st : LoggerHeap) (lh : LogHandlerS) : List String :=
  st.groupArrays.read lh.groups

/-- The `append` loop of `WithAttrs`: push each attribute, tagged with the
given group path, onto the attributes slice. -/
def appendAttrs (h : GoHeap AttrWithGroups) (s : GoSlice) (groups : List String) :
    List SAttr → GoHeap AttrWithGroups × GoSlice
  | [] => (h, s)
  | a :: rest =>
    let r := goAppend h s ⟨a, groups⟩
    appendAttrs r.1 r.2 groups rest

/-- `LogHandler.WithAttrs`: return the receiver unchanged on an empty
attribute list; otherwise clip the attributes slice and the groups slice and
append each attribute tagged with the (clipped) current group path. The tag
stores the clipped groups slice's value: that reference is never written
through, because every append in this code clips first. -/
def WithAttrs (st : LoggerHeap) (lh : LogHandlerS) (attrs : List SAttr) :
    LoggerHeap × LogHandlerS :=
  if attrs.isEmpty then (st, lh)
  else
    let clipped := lh.attributes.clip
    let groups := st.groupArrays.read lh.groups.clip
    let r := appendAttrs st.attrArrays clipped groups attrs
    ({ st with attrArrays := r.1 }, { lh with attributes := r.2 })

/-- `LogHandler.WithGroup`: return the receiver unchanged on an empty name;
otherwise clip the groups slice and append the name. -/
def WithGroup (st : LoggerHeap) (lh : LogHandlerS) (name : String) :
    LoggerHeap × LogHandlerS :=
  if name = "" then (st, lh)
  else
    let r := goAppend st.groupArrays lh.groups.clip name
    ({ st with groupArrays := r.1 }, { lh with groups := r.2 })

/-- A derivation step on a handler: `WithAttrs` or `WithGroup`. -/
inductive ForkOp where
  | withAttrs (attrs : List SAttr)
  | withGroup (name : String)

/-- Apply a derivation step. -/
def applyFork (st : LoggerHeap) (lh : LogHandlerS) : ForkOp → LoggerHeap × LogHandlerS
  | .withAttrs attrs => WithAttrs st lh attrs
  | .withGroup name => WithGroup st lh name

/-- The attribute list a fork must observe: the parent's entries followed by
exactly its own appended entries. -/
def expectedAttrs (parentAttrs : List AttrWithGroups) (parentGroups : List String) :
    ForkOp → List AttrWithGroups
  | .withAttrs attrs => parentAttrs ++ attrs.map fun a => ⟨a, parentGroups⟩
  | .withGroup _ => parentAttrs

/-- The group path a fork must observe. -/
def expectedGroups (parentGroups : List String) : ForkOp → List String
  | .withAttrs _ => parentGroups
  | .withGroup name => if name = "" then parentGroups else parentGroups ++ [name]

/-! ### Lemmas about the error map -/

theorem ErrorMap.find_set (m : ErrorMap) (k : ErrorEventType) (v : String) :
    (m.set k v).find k = some v := by
  induction m with
  | nil => simp [ErrorMap.set, ErrorMap.find]
  | cons p rest ih =>
    by_cases h : p.1 = k
    · simp [ErrorMap.set, ErrorMap.find, h]
    · simp [ErrorMap.set, ErrorMap.find, h, ih]

theorem ErrorMap.erase_set_of_not_mem (m : ErrorMap) (k : ErrorEventType) (v : String)
    (h : m.find k = none) : (m.set k v).erase k = m := by
  induction m with
  | nil => simp [ErrorMap.set, ErrorMap.erase]
  | cons p rest ih =>
    by_cases hk : p.1 = k
    · simp [ErrorMap.find, hk] at h
    · simp [ErrorMap.find, hk] at h
      simp [ErrorMap.set, ErrorMap.erase, hk, ih h]

theorem hadError_of_find_none (m : ErrorMap) (k : ErrorEventType) (msg : String)
    (h : m.find k = none) : hadError m k msg = false := by
  simp [hadError, h]

/-! ### Claim theorems for the error tracker -/

/-- C2: from a state with no identical entry for the kind, calling `NotifyError`
twice with the same kind and identical message sends exactly one `ErrorEvent`:
the first call sends it and records the entry, the second call finds the
recorded entry, sends nothing (whatever the notifier would do), and returns
success with the map unchanged. -/
theorem notifyError_idempotent (st : ErrorMap) (k : ErrorEventType) (msg : String)
    (sr2 : Option String) (h : hadError st k msg = false) :
    (NotifyError st k msg none).sent = [Event.error ⟨msg, k⟩]
    ∧ (NotifyError st k msg none).result = none
    ∧ hadError (NotifyError st k msg none).errors k msg = true
    ∧ NotifyError (NotifyError st k msg none).errors k msg sr2
        = ⟨[], none, (NotifyError st k msg none).errors⟩ := by
  have h1 : NotifyError st k msg none = ⟨[Event.error ⟨msg, k⟩], none, st.set k msg⟩ := by
    simp [NotifyError, h]
  have h2 : hadError (st.set k msg) k msg = true := by
    simp [hadError, ErrorMap.find_set]
  refine ⟨by simp [h1], by simp [h1], by simp [h1, h2], ?_⟩
  rw [h1]
  simp [NotifyError, h2]

/-- C2 witness: the two-call scenario evaluated on a fresh tracker. -/
theorem notifyError_idempotent_witness :
    (NotifyError [] "gmalware" "boom" none).sent = [Event.error ⟨"boom", "gmalware"⟩]
    ∧ (NotifyError [] "gmalware" "boom" none).result = none
    ∧ hadError (NotifyError [] "gmalware" "boom" none).errors "gmalware" "boom" = true
    ∧ NotifyError (NotifyError [] "gmalware" "boom" none).errors "gmalware" "boom" none
        = ⟨[], none, (NotifyError [] "gmalware" "boom" none).errors⟩ :=
  notifyError_idempotent [] "gmalware" "boom" none (by decide)

/-- C3: starting with no entry for `K` and a notifier that always succeeds, the
sequence `NotifyError K e; NotifyResolution msg [K]; NotifyError K e` sends
exactly two `ErrorEvent`s and one `ResolutionEvent`, each call succeeding: the
resolution removes the entry for `K`, so the repeated identical error is not
suppressed. -/
theorem error_resolution_convergence (st : ErrorMap) (K : ErrorEventType)
    (e resMsg : String) (h : st.find K = none) :
    (NotifyError st K e none).sent
      ++ (NotifyResolution (NotifyError st K e none).errors resMsg [K] none).sent
      ++ (NotifyError
            (NotifyResolution (NotifyError st K e none).errors resMsg [K] none).errors
            K e none).sent
      = [Event.error ⟨e, K⟩, Event.resolution ⟨[K], resMsg⟩, Event.error ⟨e, K⟩]
    ∧ (NotifyError st K e none).result = none
    ∧ (NotifyResolution (NotifyError st K e none).errors resMsg [K] none).result = none
    ∧ (NotifyError
          (NotifyResolution (NotifyError st K e none).errors resMsg [K] none).errors
          K e none).result = none := by
  have h1 : NotifyError st K e none = ⟨[Event.error ⟨e, K⟩], none, st.set K e⟩ := by
    simp [NotifyError, hadError_of_find_none st K e h]
  have hflag : hadErrors (st.set K e) [K] = true := by
    simp [hadErrors, ErrorMap.find_set]
  have h2 : NotifyResolution (st.set K e) resMsg [K] none
      = ⟨[Event.resolution ⟨[K], resMsg⟩], none, (st.set K e).erase K⟩ := by
    simp [NotifyResolution, hflag, List.foldl]
  have herase : (st.set K e).erase K = st := ErrorMap.erase_set_of_not_mem st K e h
  have h3 : NotifyError st K e none = ⟨[Event.error ⟨e, K⟩], none, st.set K e⟩ := h1
  refine ⟨?_, by simp [h1], ?_, ?_⟩
  · simp [h1, h2, herase, h3]
  · simp [h1, h2]
  · simp [h1, h2, herase, h3]

/-- C3 witness: the three-call scenario evaluated on a fresh tracker. -/
theorem error_resolution_convergence_witness :
    (NotifyError [] "gmalware" "down" none).sent
      ++ (NotifyResolution (NotifyError [] "gmalware" "down" none).errors "up" ["gmalware"] none).sent
      ++ (NotifyError
            (NotifyResolution (NotifyError [] "gmalware" "down" none).errors "up" ["gmalware"] none).errors
            "gmalware" "down" none).sent
      = [Event.error ⟨"down", "gmalware"⟩, Event.resolution ⟨["gmalware"], "up"⟩,
          Event.error ⟨"down", "gmalware"⟩]
    ∧ (NotifyError [] "gmalware" "down" none).result = none
    ∧ (NotifyResolution (NotifyError [] "gmalware" "down" none).errors "up" ["gmalware"] none).result = none
    ∧ (NotifyError
          (NotifyResolution (NotifyError [] "gmalware" "down" none).errors "up" ["gmalware"] none).errors
          "gmalware" "down" none).result = none :=
  error_resolution_convergence [] "gmalware" "down" "up" (by decide)

/-- C4: when the notifier send fails, the error map is left unchanged by both
`NotifyError` and `NotifyResolution`; whenever a send was actually attempted
(the duplicate/no-flagged-kind guards did not fire), the notifier's error is
returned to the caller. -/
theorem failed_send_leaves_state (st : ErrorMap) (k : ErrorEventType) (msg e resMsg : String)
    (kinds : List ErrorEventType) :
    (NotifyError st k msg (some e)).errors = st
    ∧ (hadError st k msg = false →
        (NotifyError st k msg (some e)).result = some e
        ∧ (NotifyError st k msg (some e)).sent = [Event.error ⟨msg, k⟩])
    ∧ (NotifyResolution st resMsg kinds (some e)).errors = st
    ∧ (hadErrors st kinds = true →
        (NotifyResolution st resMsg kinds (some e)).result = some e
        ∧ (NotifyResolution st resMsg kinds (some e)).sent
            = [Event.resolution ⟨kinds, resMsg⟩]) := by
  refine ⟨?_, fun h => ?_, ?_, fun h => ?_⟩
  · by_cases h : hadError st k msg <;> simp [NotifyError, h]
  · simp [NotifyError, h]
  · by_cases h : hadErrors st kinds <;> simp [NotifyResolution, h]
  · simp [NotifyResolution, h]

/-- C4 witness: a failed send on a fresh error and on a flagged resolution. -/
theorem failed_send_leaves_state_witness :
    (NotifyError [] "gmalware" "down" (some "netfail")).errors = []
    ∧ (NotifyError [] "gmalware" "down" (some "netfail")).result = some "netfail"
    ∧ (NotifyResolution [("gmalware", "down")] "up" ["gmalware"] (some "netfail")).errors
        = [("gmalware", "down")]
    ∧ (NotifyResolution [("gmalware", "down")] "up" ["gmalware"] (some "netfail")).result
        = some "netfail" := by
  refine ⟨(failed_send_leaves_state [] "gmalware" "down" "netfail" "up" ["gmalware"]).1,
    ((failed_send_leaves_state [] "gmalware" "down" "netfail" "up" ["gmalware"]).2.1 (by decide)).1,
    (failed_send_leaves_state [("gmalware", "down")] "gmalware" "down" "netfail" "up" ["gmalware"]).2.2.1,
    ((failed_send_leaves_state [("gmalware", "down")] "gmalware" "down" "netfail" "up"
        ["gmalware"]).2.2.2 (by decide)).1⟩

/-- C5: a `NotifyResolution` whose kinds are all unflagged sends nothing, never
invokes the notifier, returns success, and leaves the map unchanged —
whatever the notifier would have answered. -/
theorem resolution_unflagged_noop (st : ErrorMap) (resMsg : String)
    (kinds : List ErrorEventType) (sendResult : Option String)
    (h : hadErrors st kinds = false) :
    NotifyResolution st resMsg kinds sendResult = ⟨[], none, st⟩ := by
  simp [NotifyResolution, h]

/-- C5 witness: an unflagged resolution on a tracker flagging a different kind. -/
theorem resolution_unflagged_noop_witness :
    hadErrors [("gmalware", "down")] ["gmalware-bad-config"] = false
    ∧ NotifyResolution [("gmalware", "down")] "up" ["gmalware-bad-config"] (some "netfail")
        = ⟨[], none, [("gmalware", "down")]⟩ :=
  ⟨by decide, resolution_unflagged_noop [("gmalware", "down")] "up" ["gmalware-bad-config"]
    (some "netfail") (by decide)⟩

/-- C9: `NewHandler` replaces a nil `unresolvedError` map by a fresh empty map,
adopts a non-nil map as the initial flagged state, and the first `NotifyError`
on the nil-map handler performs a well-defined write recording the entry. -/
theorem newHandler_nil_map_safe (k : ErrorEventType) (msg : String) :
    NewHandlerErrors none = []
    ∧ (∀ m : ErrorMap, NewHandlerErrors (some m) = m)
    ∧ NotifyError (NewHandlerErrors none) k msg none
        = ⟨[Event.error ⟨msg, k⟩], none, [(k, msg)]⟩ := by
  refine ⟨rfl, fun m => rfl, ?_⟩
  simp [NewHandlerErrors, NotifyError, hadError, ErrorMap.find, ErrorMap.set]

/-! ### Claim theorems for the attribute tree -/

theorem lookupKey_setKey (m : AMap) (key : String) (v : AVal) :
    lookupKey (setKey m key v) key = some v := by
  induction m with
  | nil => simp [setKey, lookupKey]
  | cons p rest ih =>
    by_cases h : p.1 = key
    · simp [setKey, lookupKey, h]
    · simp [setKey, lookupKey, h, ih]

/-- C7: the emitted tree replays the persisted attributes in append order at
their own stored group paths, then the inline attributes under the current
group path, and whenever two insertions resolve to the same fully-qualified
key the later one overwrites the earlier: looking the key up after an
insertion always yields the newly inserted scalar, whatever the map held. -/
theorem getAttributes_append_order_last_wins :
    (∀ (ps : List AttrWithGroups) (p : AttrWithGroups) (g : List String),
      getAttributes (ps ++ [p]) g [] = addAttribute (getAttributes ps g []) p.groups p.attr)
    ∧ (∀ (ps : List AttrWithGroups) (g : List String) (il : List SAttr) (a : SAttr),
      getAttributes ps g (il ++ [a]) = addAttribute (getAttributes ps g il) g a)
    ∧ (∀ (m : AMap) (gs : List String) (a : SAttr),
      lookupPath (addAttribute m gs a) gs a.key = some (.scalar a.val)) := by
  refine ⟨fun ps p g => ?_, fun ps g il a => ?_, fun m gs a => ?_⟩
  · simp [getAttributes, List.foldl_append]
  · simp [getAttributes, List.foldl_append]
  · induction gs generalizing m with
    | nil => simp [addAttribute, lookupPath, lookupKey_setKey]
    | cons group rest ih =>
      simp only [addAttribute, lookupPath, lookupKey_setKey]
      exact ih _

/-- C10: inserting through a group path whose first group name currently holds
a scalar replaces that scalar by a fresh empty map: the subtree installed at
the group key is built from the empty map, shadowing the scalar. -/
theorem addAttribute_group_shadows_scalar (m : AMap) (group : String) (s : String)
    (rest : List String) (a : SAttr) (h : lookupKey m group = some (.scalar s)) :
    lookupKey (addAttribute m (group :: rest) a) group
      = some (.tree (addAttribute [] rest a)) := by
  simp only [addAttribute, h, lookupKey_setKey]

/-- C10 witness: a scalar `g` is shadowed by the group `g` of a later attribute. -/
theorem addAttribute_group_shadows_scalar_witness :
    lookupKey [("g", AVal.scalar "old")] "g" = some (.scalar "old")
    ∧ lookupKey (addAttribute [("g", AVal.scalar "old")] ["g", "h"] ⟨"k", "v"⟩) "g"
        = some (.tree (addAttribute [] ["h"] ⟨"k", "v"⟩)) :=
  ⟨rfl, addAttribute_group_shadows_scalar [("g", AVal.scalar "old")] "g" "old" ["h"] ⟨"k", "v"⟩ rfl⟩

/-! ### Lemmas about slices and the log handler forks -/

theorem GoHeap.read_of_extend {α : Type} (h h' : GoHeap α) (ext : List (List α)) (s : GoSlice)
    (e : h'.arrays = h.arrays ++ ext) (hs : s.arr < h.arrays.length) :
    h'.read s = h.read s := by
  unfold GoHeap.read
  rw [e, List.getD_append _ _ _ _ hs]

theorem GoHeap.read_clip {α : Type} (h : GoHeap α) (s : GoSlice) :
    h.read s.clip = h.read s := rfl

theorem GoHeap.read_concat {α : Type} (h : GoHeap α) (l : List α) (n : Nat)
    (hl : l.length ≤ n) : GoHeap.read ⟨h.arrays ++ [l]⟩ ⟨h.arrays.length, n, n⟩ = l := by
  unfold GoHeap.read
  have : (h.arrays ++ [l]).getD h.arrays.length [] = l := by
    simp [List.getD, List.getElem?_concat_length]
  rw [this, List.take_of_length_le hl]

theorem read_length_le {α : Type} (h : GoHeap α) (s : GoSlice) : (h.read s).length ≤ s.len := by
  simp [GoHeap.read]

theorem appendAttrs_spec (attrs : List SAttr) (h : GoHeap AttrWithGroups) (s : GoSlice)
    (groups : List String) (hcap : s.cap ≤ s.len) (harr : s.arr < h.arrays.length) :
    (∃ ext, (appendAttrs h s groups attrs).1.arrays = h.arrays ++ ext)
    ∧ (appendAttrs h s groups attrs).1.read (appendAttrs h s groups attrs).2
        = h.read s ++ attrs.map (fun a => ⟨a, groups⟩)
    ∧ (appendAttrs h s groups attrs).2.cap ≤ (appendAttrs h s groups attrs).2.len
    ∧ (appendAttrs h s groups attrs).2.arr < (appendAttrs h s groups attrs).1.arrays.length := by
  induction attrs generalizing h s with
  | nil =>
    exact ⟨⟨[], by simp [appendAttrs]⟩, by simp [appendAttrs], hcap, by simpa [appendAttrs] using harr⟩
  | cons a rest ih =>
    have hnlt : ¬ s.len < s.cap := not_lt.mpr hcap
    have hstep : appendAttrs h s groups (a :: rest)
        = appendAttrs ⟨h.arrays ++ [h.read s ++ [⟨a, groups⟩]]⟩
            ⟨h.arrays.length, s.len + 1, s.len + 1⟩ groups rest := by
      simp [appendAttrs, goAppend, hnlt]
    set h' : GoHeap AttrWithGroups := ⟨h.arrays ++ [h.read s ++ [⟨a, groups⟩]]⟩ with hh'
    set s' : GoSlice := ⟨h.arrays.length, s.len + 1, s.len + 1⟩ with hs'
    have harr' : s'.arr < h'.arrays.length := by
      simp [hh', hs']
    have hread' : h'.read s' = h.read s ++ [⟨a, groups⟩] := by
      rw [hh', hs']
      exact GoHeap.read_concat h _ _ (by simpa using Nat.succ_le_succ (read_length_le h s))
    obtain ⟨⟨ext, hext⟩, hread, hc, ha⟩ := ih h' s' le_rfl harr'
    refine ⟨⟨(h.read s ++ [⟨a, groups⟩]) :: ext, ?_⟩, ?_, ?_, ?_⟩
    · rw [hstep, hext, hh']
      simp
    · rw [hstep, hread, hread']
      simp
    · rw [hstep]
      exact hc
    · rw [hstep]
      exact ha

theorem applyFork_spec (st : LoggerHeap) (lh : LogHandlerS) (op : ForkOp)
    (hA : lh.attributes.arr < st.attrArrays.arrays.length)
    (hG : lh.groups.arr < st.groupArrays.arrays.length) :
    (∃ extA, (applyFork st lh op).1.attrArrays.arrays = st.attrArrays.arrays ++ extA)
    ∧ (∃ extG, (applyFork st lh op).1.groupArrays.arrays = st.groupArrays.arrays ++ extG)
    ∧ readAttributes (applyFork st lh op).1 (applyFork st lh op).2
        = expectedAttrs (readAttributes st lh) (readGroups st lh) op
    ∧ readGroups (applyFork st lh op).1 (applyFork st lh op).2
        = expectedGroups (readGroups st lh) op
    ∧ (applyFork st lh op).2.attributes.arr < (applyFork st lh op).1.attrArrays.arrays.length
    ∧ (applyFork st lh op).2.groups.arr < (applyFork st lh op).1.groupArrays.arrays.length := by
  cases op with
  | withAttrs attrs =>
    cases attrs with
    | nil =>
      exact ⟨⟨[], by simp [applyFork, WithAttrs]⟩, ⟨[], by simp [applyFork, WithAttrs]⟩,
        by simp [applyFork, WithAttrs, expectedAttrs],
        by simp [applyFork, WithAttrs, expectedGroups],
        by simpa [applyFork, WithAttrs] using hA, by simpa [applyFork, WithAttrs] using hG⟩
    | cons a rest =>
      have hne : ¬ (a :: rest : List SAttr).isEmpty := by simp
      have hfork : applyFork st lh (.withAttrs (a :: rest))
          = ({ st with attrArrays :=
                (appendAttrs st.attrArrays lh.attributes.clip
                  (st.groupArrays.read lh.groups.clip) (a :: rest)).1 },
             { lh with attributes :=
                (appendAttrs st.attrArrays lh.attributes.clip
                  (st.groupArrays.read lh.groups.clip) (a :: rest)).2 }) := by
        simp [applyFork, WithAttrs, hne]
      obtain ⟨⟨ext, hext⟩, hread, _, harr⟩ :=
        appendAttrs_spec (a :: rest) st.attrArrays lh.attributes.clip
          (st.groupArrays.read lh.groups.clip) le_rfl (by simpa [GoSlice.clip] using hA)
    -- the clipped slice reads the same elements as the original
      refine ⟨⟨ext, by rw [hfork]; exact hext⟩, ⟨[], by rw [hfork]; simp⟩, ?_, ?_, ?_, ?_⟩
      · rw [hfork]
        show (appendAttrs _ _ _ _).1.read (appendAttrs _ _ _ _).2 = _
        rw [hread, GoHeap.read_clip, GoHeap.read_clip]
        rfl
      · rw [hfork]
        rfl
      · rw [hfork]
        exact harr
      · rw [hfork]
        exact hG
  | withGroup name =>
    by_cases hname : name = ""
    · exact ⟨⟨[], by simp [applyFork, WithGroup, hname]⟩, ⟨[], by simp [applyFork, WithGroup, hname]⟩,
        by simp [applyFork, WithGroup, expectedAttrs, hname],
        by simp [applyFork, WithGroup, expectedGroups, hname],
        by simpa [applyFork, WithGroup, hname] using hA,
        by simpa [applyFork, WithGroup, hname] using hG⟩
    · have hnlt : ¬ lh.groups.clip.len < lh.groups.clip.cap := by simp [GoSlice.clip]
      have hfork : applyFork st lh (.withGroup name)
          = ({ st with groupArrays :=
                ⟨st.groupArrays.arrays ++ [st.groupArrays.read lh.groups.clip ++ [name]]⟩ },
             { lh with groups :=
                ⟨st.groupArrays.arrays.length, lh.groups.len + 1, lh.groups.len + 1⟩ }) := by
        simp [applyFork, WithGroup, hname, goAppend, hnlt, GoSlice.clip]
      refine ⟨⟨[], by rw [hfork]; simp⟩,
        ⟨[st.groupArrays.read lh.groups.clip ++ [name]], by rw [hfork]⟩, ?_, ?_, ?_, ?_⟩
      · rw [hfork]
        simp [expectedAttrs, readAttributes]
      · rw [hfork]
        show GoHeap.read ⟨st.groupArrays.arrays ++ _⟩ _ = _
        rw [GoHeap.read_concat st.groupArrays _ _
          (by simpa using Nat.succ_le_succ (read_length_le st.groupArrays lh.groups.clip))]
        simp [expectedGroups, hname, readGroups, GoHeap.read_clip]
      · rw [hfork]
        exact hA
      · rw [hfork]
        simp

/-- C1: fork two sibling handlers from one parent (each by `WithAttrs` or
`WithGroup`), the second fork performed after the first on the same backing
heap; even when the parent's slices have spare capacity, each sibling's
persisted attribute list and group path — read after both forks — consist of
exactly the parent's entries followed by that sibling's own additions, and the
emitted record of the first sibling is built from its own entries only. -/
theorem sibling_forks_isolated (st0 : LoggerHeap) (lh0 : LogHandlerS) (opA opB : ForkOp)
    (hA : lh0.attributes.arr < st0.attrArrays.arrays.length)
    (hG : lh0.groups.arr < st0.groupArrays.arrays.length) :
    readAttributes (applyFork (applyFork st0 lh0 opA).1 lh0 opB).1 (applyFork st0 lh0 opA).2
      = expectedAttrs (readAttributes st0 lh0) (readGroups st0 lh0) opA
    ∧ readGroups (applyFork (applyFork st0 lh0 opA).1 lh0 opB).1 (applyFork st0 lh0 opA).2
      = expectedGroups (readGroups st0 lh0) opA
    ∧ readAttributes (applyFork (applyFork st0 lh0 opA).1 lh0 opB).1
        (applyFork (applyFork st0 lh0 opA).1 lh0 opB).2
      = expectedAttrs (readAttributes st0 lh0) (readGroups st0 lh0) opB
    ∧ readGroups (applyFork (applyFork st0 lh0 opA).1 lh0 opB).1
        (applyFork (applyFork st0 lh0 opA).1 lh0 opB).2
      = expectedGroups (readGroups st0 lh0) opB
    ∧ ∀ inline : List SAttr,
        getAttributes
          (readAttributes (applyFork (applyFork st0 lh0 opA).1 lh0 opB).1
            (applyFork st0 lh0 opA).2)
          (readGroups (applyFork (applyFork st0 lh0 opA).1 lh0 opB).1
            (applyFork st0 lh0 opA).2)
          inline
        = getAttributes (expectedAttrs (readAttributes st0 lh0) (readGroups st0 lh0) opA)
            (expectedGroups (readGroups st0 lh0) opA) inline := by
  obtain ⟨⟨extA1, hextA1⟩, ⟨extG1, hextG1⟩, hra, hrg, haa, hag⟩ := applyFork_spec st0 lh0 opA hA hG
  have hA' : lh0.attributes.arr < (applyFork st0 lh0 opA).1.attrArrays.arrays.length := by
    rw [hextA1, List.length_append]
    omega
  have hG' : lh0.groups.arr < (applyFork st0 lh0 opA).1.groupArrays.arrays.length := by
    rw [hextG1, List.length_append]
    omega
  obtain ⟨⟨extA2, hextA2⟩, ⟨extG2, hextG2⟩, hrb, hrgb, _, _⟩ :=
    applyFork_spec (applyFork st0 lh0 opA).1 lh0 opB hA' hG'
  have hpa : readAttributes (applyFork st0 lh0 opA).1 lh0 = readAttributes st0 lh0 :=
    GoHeap.read_of_extend st0.attrArrays _ extA1 lh0.attributes hextA1 hA
  have hpg : readGroups (applyFork st0 lh0 opA).1 lh0 = readGroups st0 lh0 :=
    GoHeap.read_of_extend st0.groupArrays _ extG1 lh0.groups hextG1 hG
  have hstabA : readAttributes (applyFork (applyFork st0 lh0 opA).1 lh0 opB).1
      (applyFork st0 lh0 opA).2
      = readAttributes (applyFork st0 lh0 opA).1 (applyFork st0 lh0 opA).2 :=
    GoHeap.read_of_extend (applyFork st0 lh0 opA).1.attrArrays _ extA2
      (applyFork st0 lh0 opA).2.attributes hextA2 haa
  have hstabG : readGroups (applyFork (applyFork st0 lh0 opA).1 lh0 opB).1
      (applyFork st0 lh0 opA).2
      = readGroups (applyFork st0 lh0 opA).1 (applyFork st0 lh0 opA).2 :=
    GoHeap.read_of_extend (applyFork st0 lh0 opA).1.groupArrays _ extG2
      (applyFork st0 lh0 opA).2.groups hextG2 hag
  have c1 := hstabA.trans hra
  have c2 := hstabG.trans hrg
  have c3 := hrb.trans (by rw [hpa, hpg])
  have c4 := hrgb.trans (by rw [hpg])
  exact ⟨c1, c2, c3, c4, fun inline => by rw [c1, c2]⟩

/-- C1 witness: the scenario of the repository's own handler test — a parent
whose attributes slice has length 1 and spare capacity 2, two sibling
`WithAttrs` forks writing `sub=1` and `sub=2` — each sibling still reads only
its own attribute after both forks. -/
theorem sibling_forks_isolated_witness :
    readAttributes
        (applyFork (applyFork
            ⟨⟨[[⟨⟨"common", "val"⟩, []⟩, ⟨⟨"junk", "junk"⟩, []⟩]]⟩, ⟨[[]]⟩⟩
            ⟨⟨0, 1, 2⟩, ⟨0, 0, 0⟩⟩ (.withAttrs [⟨"sub", "1"⟩])).1
          ⟨⟨0, 1, 2⟩, ⟨0, 0, 0⟩⟩ (.withAttrs [⟨"sub", "2"⟩])).1
        (applyFork
            ⟨⟨[[⟨⟨"common", "val"⟩, []⟩, ⟨⟨"junk", "junk"⟩, []⟩]]⟩, ⟨[[]]⟩⟩
            ⟨⟨0, 1, 2⟩, ⟨0, 0, 0⟩⟩ (.withAttrs [⟨"sub", "1"⟩])).2
      = [⟨⟨"common", "val"⟩, []⟩, ⟨⟨"sub", "1"⟩, []⟩]
    ∧ readAttributes
        (applyFork (applyFork
            ⟨⟨[[⟨⟨"common", "val"⟩, []⟩, ⟨⟨"junk", "junk"⟩, []⟩]]⟩, ⟨[[]]⟩⟩
            ⟨⟨0, 1, 2⟩, ⟨0, 0, 0⟩⟩ (.withAttrs [⟨"sub", "1"⟩])).1
          ⟨⟨0, 1, 2⟩, ⟨0, 0, 0⟩⟩ (.withAttrs [⟨"sub", "2"⟩])).1
        (applyFork (applyFork
            ⟨⟨[[⟨⟨"common", "val"⟩, []⟩, ⟨⟨"junk", "junk"⟩, []⟩]]⟩, ⟨[[]]⟩⟩
            ⟨⟨0, 1, 2⟩, ⟨0, 0, 0⟩⟩ (.withAttrs [⟨"sub", "1"⟩])).1
          ⟨⟨0, 1, 2⟩, ⟨0, 0, 0⟩⟩ (.withAttrs [⟨"sub", "2"⟩])).2
      = [⟨⟨"common", "val"⟩, []⟩, ⟨⟨"sub", "2"⟩, []⟩] := by
  have h := sibling_forks_isolated
    ⟨⟨[[⟨⟨"common", "val"⟩, []⟩, ⟨⟨"junk", "junk"⟩, []⟩]]⟩, ⟨[[]]⟩⟩
    ⟨⟨0, 1, 2⟩, ⟨0, 0, 0⟩⟩ (.withAttrs [⟨"sub", "1"⟩]) (.withAttrs [⟨"sub", "2"⟩])
    (by decide) (by decide)
  exact ⟨h.1.trans (by decide), h.2.2.1.trans (by decide)⟩

/-! ### Claim theorems for the HTTP client and task loop -/

/-- C6: a 401 response is classified as the fatal unauthorized fetch result;
once the fetch trace hits it the producer pushes no task from the rest of the
trace and returns, closing the channel; any other fetch error just continues
with the next iteration; and the dispatch loop terminates once it has consumed
the queue and observes the close. -/
theorem unauthorized_stops_task_fetch :
    (∀ (body : String) (resGiven : Bool) (decodeErr : Option String) (ts : List String),
      fetchResultOfCall (callResponse 401 body resGiven decodeErr) ts = .unauthorized)
    ∧ (∀ pre post : List FetchResult,
      producerRun (pre ++ .unauthorized :: post) = ((producerRun pre).1, true))
    ∧ (∀ rest : List FetchResult, producerRun (.otherError :: rest) = producerRun rest)
    ∧ (∀ tasks : List String, dispatchRun (tasks.map some ++ [none]) = true) := by
  refine ⟨fun body resGiven decodeErr ts => ?_, fun pre post => ?_, fun rest => rfl,
    fun tasks => ?_⟩
  · simp [callResponse, fetchResultOfCall, CallErr.isUnauthorizedConnector]
  · induction pre with
    | nil => simp [producerRun]
    | cons r rest ih => cases r <;> simp [producerRun, ih]
  · induction tasks with
    | nil => simp [dispatchRun]
    | cons t rest ih => simpa [dispatchRun] using ih

/-- C8: on a 200 response, decoding into the caller's target is attempted
exactly when a non-nil target was given and the body is non-empty; when the
target is nil or the body empty, nothing is decoded and the call succeeds. -/
theorem call_200_decodes_iff_target_and_body (body : String) (resGiven : Bool)
    (decodeErr : Option String) :
    ((callResponse 200 body resGiven decodeErr).decodeAttempted = true
      ↔ (resGiven = true ∧ body ≠ ""))
    ∧ ((callResponse 200 body resGiven decodeErr).decodeAttempted = false →
        (callResponse 200 body resGiven decodeErr).err = none) := by
  constructor
  · by_cases hr : resGiven
    · by_cases hb : body.length = 0
      · have hemp : body = "" := by
          cases body with
          | mk data =>
            simp [String.length] at hb
            simp [hb]
        simp [callResponse, hr, hb, hemp]
      · have : body ≠ "" := fun h => hb (by simp [h])
        simp [callResponse, hr, hb, this]
    · simp [callResponse, hr]
  · intro h
    by_cases hr : resGiven
    · by_cases hb : body.length = 0
      · simp [callResponse, hr, hb]
      · simp [callResponse, hr, hb] at h
    · simp [callResponse, hr]

/-- C8 witness: with a target and body `"x"` the decode is attempted; with an
empty body the call succeeds without decoding. -/
theorem call_200_decodes_iff_target_and_body_witness :
    (callResponse 200 "x" true none).decodeAttempted = true
    ∧ (callResponse 200 "" true none).err = none := by
  refine ⟨(call_200_decodes_iff_target_and_body "x" true none).1.mpr ⟨rfl, by decide⟩, ?_⟩
  exact (call_200_decodes_iff_target_and_body "" true none).2 rfl

end ConnectorIntegration
